import Mathlib

/-!
Shallow embedding of `src/wordleaid.py` (class `WordleAid`): the tile
constant lists, `compare_words`, and `find_candidates`, together with proofs
of the specification claims about them.

Python strings are modelled as `List Char`; Python exceptions as
`Except PyError`, where `PyError` distinguishes the `ValueError` the code
raises on invalid input from the `IndexError` that out-of-range string
indexing raises.
-/

/-- The two kinds of exception the embedded code can raise: `ValueError`
(the InvalidInput error of the spec, raised explicitly with a message) and
`IndexError` (raised by out-of-range string indexing). -/
inductive PyError where
  | valueError (msg : String)
  | indexError
deriving DecidableEq

deriving instance DecidableEq for Except

/-- The characters recognised as a green tile: `self.YES = ["Y", "🟩"]`
(line 20 of the source). -/
def YES : List Char := ['Y', '🟩']

/-- The characters recognised as a yellow tile: `self.MAYBE = ["?", "🟨"]`
(line 21). -/
def MAYBE : List Char := ['?', '🟨']

/-- The characters recognised as a black tile: `self.NO = ["_", "⬛", "⬜"]`
(line 22). -/
def NO : List Char := ['_', '⬛', '⬜']

/-- The two accepted values of the `output_style` constructor parameter
(lines 15-31). -/
inductive Style where
  | blocks
  | alpha
deriving DecidableEq

/-- The green tile emitted by `compare_words`: `self.Y_DISPLAY`
(lines 24-31). -/
def Y_DISPLAY : Style → Char
  | .blocks => '🟩'
  | .alpha => 'Y'

/-- The yellow tile emitted by `compare_words`: `self.M_DISPLAY`. -/
def M_DISPLAY : Style → Char
  | .blocks => '🟨'
  | .alpha => '?'

/-- The black tile emitted by `compare_words`: `self.N_DISPLAY`. -/
def N_DISPLAY : Style → Char
  | .blocks => '⬛'
  | .alpha => '_'

/-- Python string indexing `s[i]` for a non-negative index: the character,
or an `IndexError` when `i` is out of range. -/
def pyGet (s : List Char) (i : Nat) : Except PyError Char :=
  match s.get? i with
  | some c => .ok c
  | none => .error .indexError

/-- Python `enumerate`, starting from a given index. -/
def pyEnumFrom : Nat → List α → List (Nat × α)
  | _, [] => []
  | n, x :: xs => (n, x) :: pyEnumFrom (n + 1) xs

/-- Python `enumerate(xs)`. -/
def pyEnum (xs : List α) : List (Nat × α) :=
  pyEnumFrom 0 xs

/-- Python `list.index(x)`: the first position holding `x`.  In the source
it is only ever called under a membership guard, so the out-of-range value
returned on a missing element is never reached. -/
def pyIndex (x : Option Char) : List (Option Char) → Nat
  | [] => 0
  | y :: ys => if y = x then 0 else pyIndex x ys + 1

/-- The tile string built by the loop of `compare_words` (lines 72-82):
`pairs = list(zip(wordle, guess))`, and per pair `(w, g)` a green tile when
`w == g`, else a yellow tile when some pair `(p0, p1)` has `p0 == g` and
`p1 != g`, else a black tile. -/
def compare_tiles (st : Style) (guess wordle : List Char) : List Char :=
  let pairs := List.zip wordle guess
  pairs.map fun p =>
    if p.1 = p.2 then Y_DISPLAY st
    else if pairs.any (fun q => q.1 == p.2 && q.2 != p.2) then M_DISPLAY st
    else N_DISPLAY st

/-- `WordleAid.compare_words` (lines 40-82): raises `ValueError` unless both
words have length 5, otherwise returns the tile string of `compare_tiles`. -/
def compare_words (st : Style) (guess wordle : List Char) :
    Except PyError (List Char) :=
  if guess.length ≠ 5 ∨ wordle.length ≠ 5 then
    .error (.valueError ("guess and wordle must both be 5-character strings. Received " ++ String.mk guess ++ " and " ++ String.mk wordle ++ "."))
  else
    .ok (compare_tiles st guess wordle)

/-- The validation loop at the top of `find_candidates` (lines 109-112):
raise `ValueError` at the first history record either of whose elements does
not have length 5. -/
def validate : List (List Char × List Char) → Except PyError Unit
  | [] => .ok ()
  | (wd, ts) :: rest =>
    if wd.length ≠ 5 ∨ ts.length ≠ 5 then
      .error (.valueError ("The known info list can only contain 5 character strings. Received (" ++ String.mk wd ++ ", " ++ String.mk ts ++ ")."))
    else validate rest

/-- The inner loop of the green-letter pass (lines 119-122): for each
enumerated `(i, (l, tile))` of `zip(guessed_word, tilestring)`, set
`green_letters[i] = l` when the tile is green. -/
def update_greens (gl : List (Option Char)) :
    List (Nat × (Char × Char)) → List (Option Char)
  | [] => gl
  | (i, lt) :: rest =>
    update_greens (if lt.2 ∈ YES then gl.set i (some lt.1) else gl) rest

/-- The green-letter map of `find_candidates` (lines 118-122): starting
from `[None] * 5`, run the green-letter pass over every history record. -/
def green_letters (known_info : List (List Char × List Char)) :
    List (Option Char) :=
  known_info.foldl (fun gl r => update_greens gl (pyEnum (List.zip r.1 r.2)))
    (List.replicate 5 (none : Option Char))

/-- The body of the position loop of `find_candidates` (lines 131-154) for
one position `i` with tile `tile`, deciding whether the candidate `word` is
disqualified there (`.ok true`), passes (`.ok false`), or the Python code
raises (`.error`).  The branches mirror the `if`/`elif` chain together with
Python's left-to-right short-circuit evaluation:
green tile — disqualified iff `word[i] != guessed_word[i]`;
black tile — disqualified iff `guessed_word[i] in word` and not
(`guessed_word[i] in green_letters` and
`word[green_letters.index(guessed_word[i])] == guessed_word[i]` and
`not word[i] == guessed_word[i]`);
yellow tile — disqualified iff `guessed_word[i] not in word` or
`guessed_word[i] == word[i]`. -/
def check_pos (gl : List (Option Char)) (word wd : List Char) (i : Nat)
    (tile : Char) : Except PyError Bool :=
  if tile ∈ YES then
    match pyGet word i, pyGet wd i with
    | .error e, _ => .error e
    | .ok _, .error e => .error e
    | .ok wi, .ok gi => if wi = gi then .ok false else .ok true
  else if tile ∈ NO then
    match pyGet wd i with
    | .error e => .error e
    | .ok gi =>
      if gi ∈ word then
        if (some gi) ∈ gl then
          match pyGet word (pyIndex (some gi) gl) with
          | .error e => .error e
          | .ok wk =>
            if wk = gi then
              match pyGet word i with
              | .error e => .error e
              | .ok wi => if wi = gi then .ok true else .ok false
            else .ok true
        else .ok true
      else .ok false
  else if tile ∈ MAYBE then
    match pyGet wd i with
    | .error e => .error e
    | .ok gi =>
      if gi ∈ word then
        match pyGet word i with
        | .error e => .error e
        | .ok wi => if gi = wi then .ok true else .ok false
      else .ok true
  else .ok false

/-- The position loop over one history record (lines 131-154), consuming
`enumerate(tilestring)` and stopping at the first disqualifying position
(`break`). -/
def check_record (gl : List (Option Char)) (word wd : List Char) :
    List (Nat × Char) → Except PyError Bool
  | [] => .ok false
  | (i, tile) :: rest =>
    match check_pos gl word wd i tile with
    | .error e => .error e
    | .ok true => .ok true
    | .ok false => check_record gl word wd rest

/-- The record loop for one candidate word (lines 127-157): `qualified`
becomes false at the first record with a disqualifying position. -/
def check_word (gl : List (Option Char)) (word : List Char) :
    List (List Char × List Char) → Except PyError Bool
  | [] => .ok true
  | (wd, ts) :: rest =>
    match check_record gl word wd (pyEnum ts) with
    | .error e => .error e
    | .ok true => .ok false
    | .ok false => check_word gl word rest

/-- The candidate loop of `find_candidates` (lines 124-159): append each
word whose checks all pass. -/
def filter_words (gl : List (Option Char))
    (ki : List (List Char × List Char)) :
    List (List Char) → Except PyError (List (List Char))
  | [] => .ok []
  | w :: ws =>
    match check_word gl w ki with
    | .error e => .error e
    | .ok q =>
      match filter_words gl ki ws with
      | .error e => .error e
      | .ok rest => .ok (if q then w :: rest else rest)

/-- `WordleAid.find_candidates` (lines 84-161) with an explicit word list:
validate the history, derive the green-letter map, and filter the pool. -/
def find_candidates (known_info : List (List Char × List Char))
    (wordlist : List (List Char)) : Except PyError (List (List Char)) :=
  match validate known_info with
  | .error e => .error e
  | .ok _ => filter_words (green_letters known_info) known_info wordlist

/-- Whether a candidate word qualifies against the whole history: the value
of `check_word`, with an error counting as not qualifying.  (In every use
below the no-error case is established separately.) -/
def qualifies (gl : List (Option Char)) (ki : List (List Char × List Char))
    (w : List Char) : Bool :=
  match check_word gl w ki with
  | .ok b => b
  | .error _ => false

/-- Whether a result is the InvalidInput failure of the spec, i.e. the
`ValueError` the source raises on malformed input. -/
def isInvalidInput : Except PyError α → Bool
  | .error (.valueError _) => true
  | _ => false

/-! ## General helper lemmas -/

lemma check_word_nil_info (gl : List (Option Char)) (w : List Char) :
    check_word gl w [] = .ok true := rfl

lemma filter_words_nil_info (gl : List (Option Char)) :
    ∀ pool, filter_words gl [] pool = .ok pool := by
  intro pool
  induction pool with
  | nil => rfl
  | cons w ws ih => simp [filter_words, check_word, ih]

lemma fc_nil (pool : List (List Char)) : find_candidates [] pool = .ok pool := by
  simp [find_candidates, validate, filter_words_nil_info]

/-! ## Claim theorems -/

/-- C4 (confirmed): `compare_words "SLOSH" "SHUNT"` returns exactly the
feedback code Hit, Absent, Absent, Absent, Present (in the display
characters of whichever style was configured): the second S of the guess
does not receive Present once the first S has matched the only S of the
target as a Hit. -/
theorem C4_slosh_shunt (st : Style) :
    compare_words st ['S', 'L', 'O', 'S', 'H'] ['S', 'H', 'U', 'N', 'T'] =
      .ok [Y_DISPLAY st, N_DISPLAY st, N_DISPLAY st, N_DISPLAY st,
        M_DISPLAY st] := by
  cases st <;> decide

/-- C2 (code bug): per-letter occurrence conservation fails on the code.
For guess SSBBB against target CCSCC, `compare_words` returns
Present, Present, Absent, Absent, Absent: two non-Absent tiles at positions
where the guess holds S, although the target contains S only once.  (Real
Wordle rules, and the spec, allow at most one non-Absent S tile here.) -/
theorem C2_conservation_failure :
    compare_words .alpha ['S', 'S', 'B', 'B', 'B'] ['C', 'C', 'S', 'C', 'C'] =
      .ok ['?', '?', '_', '_', '_'] ∧
    ((List.zip ['S', 'S', 'B', 'B', 'B'] ['?', '?', '_', '_', '_']).filter
        (fun p => p.1 == 'S' && decide (p.2 ∉ NO))).length = 2 ∧
    (['C', 'C', 'S', 'C', 'C'].filter (fun c => c == 'S')).length = 1 := by
  decide

/-- C8 (confirmed): filtering with an empty history returns the pool
unchanged — same words, same order, no error. -/
theorem C8_empty_history_identity (pool : List (List Char)) :
    find_candidates [] pool = .ok pool :=
  fc_nil pool

/-- C1 (counterexample): the claimed Absent rule is false on the code.
With history `[("EEABC", "Y____")]` the green-letter map holds E at
position 0 only; the candidate EZEFG contains E at the non-green position 2
(other than the Absent position 1), so by the claim it should be excluded
at position 1 — but `check_pos` accepts it there, because the code only
checks the first green position of the letter and position 1 itself, never
the other occurrences. -/
theorem C1_absent_rule_counterexample :
    ¬ ((check_pos
          (green_letters [(['E', 'E', 'A', 'B', 'C'],
            ['Y', '_', '_', '_', '_'])])
          ['E', 'Z', 'E', 'F', 'G'] ['E', 'E', 'A', 'B', 'C'] 1 '_' =
        .ok false) ↔
      ('E' ∉ ['E', 'Z', 'E', 'F', 'G'] ∨
        ((some 'E') ∈ green_letters [(['E', 'E', 'A', 'B', 'C'],
            ['Y', '_', '_', '_', '_'])] ∧
          (∀ j < 5, ['E', 'Z', 'E', 'F', 'G'].get? j = some 'E' →
            (green_letters [(['E', 'E', 'A', 'B', 'C'],
              ['Y', '_', '_', '_', '_'])]).get? j = some (some 'E')) ∧
          ['E', 'Z', 'E', 'F', 'G'].get? 1 ≠ some 'E'))) := by
  decide

/-! ## Lemmas about the indexing helpers -/

lemma pyGet_eq_ok {s : List Char} {i : Nat} {c : Char} :
    pyGet s i = .ok c ↔ s.get? i = some c := by
  unfold pyGet
  cases h : s.get? i <;> simp

lemma pyGet_eq_err {s : List Char} {i : Nat} (h : s.get? i = none) :
    pyGet s i = .error .indexError := by
  unfold pyGet
  rw [h]

lemma pyIndex_spec {x : Option Char} {l : List (Option Char)} (h : x ∈ l) :
    pyIndex x l < l.length ∧ l.get? (pyIndex x l) = some x := by
  induction l with
  | nil => cases h
  | cons y ys ih =>
    by_cases hy : y = x
    · subst hy
      simp [pyIndex]
    · have hx : x ∈ ys := by
        rcases List.mem_cons.mp h with h1 | h2
        · exact absurd h1.symm hy
        · exact h2
      obtain ⟨h1, h2⟩ := ih hx
      constructor
      · simpa [pyIndex, hy] using Nat.succ_lt_succ h1
      · simpa [pyIndex, hy] using h2

/-- C1 (amended, proved): for a record of the history with a black
(Absent) tile at position i, the code accepts the candidate c at that
position iff the guessed letter does not appear anywhere in c, unless the
letter is a confirmed green letter of the green-letter map, c holds that
letter at the FIRST green position recorded for it (the only one the code
inspects), and c does not hold it at position i itself.  No condition is
imposed on further occurrences of the letter elsewhere in c. -/
theorem C1_absent_rule_amended (ki : List (List Char × List Char))
    (c wd ts : List Char) (i : Nat) (tile gi : Char)
    (hrec : (wd, ts) ∈ ki)
    (hki : ∀ r ∈ ki, r.1.length = 5 ∧ r.2.length = 5)
    (hgi : wd.get? i = some gi) (htile : ts.get? i = some tile)
    (hNO : tile ∈ NO) :
    check_pos (green_letters ki) c wd i tile = .ok false ↔
      (gi ∉ c ∨
        ((some gi) ∈ green_letters ki ∧
          c.get? (pyIndex (some gi) (green_letters ki)) = some gi ∧
          ∃ ci, c.get? i = some ci ∧ ci ≠ gi)) := by
  have hYES : tile ∉ YES := by
    intro hy
    have hdisj : ∀ x ∈ NO, x ∉ YES := by decide
    exact hdisj tile hNO hy
  have hpg : pyGet wd i = .ok gi := pyGet_eq_ok.mpr hgi
  by_cases hc : gi ∈ c
  · by_cases hg : (some gi) ∈ green_letters ki
    · cases hk : c.get? (pyIndex (some gi) (green_letters ki)) with
      | none =>
        have hpk := pyGet_eq_err hk
        simp [check_pos, hYES, hNO, hpg, hc, hg, hpk, hk]
      | some wk =>
        have hpk : pyGet c (pyIndex (some gi) (green_letters ki)) = .ok wk :=
          pyGet_eq_ok.mpr hk
        by_cases hwk : wk = gi
        · cases hci : c.get? i with
          | none =>
            have hpci := pyGet_eq_err hci
            simp [check_pos, hYES, hNO, hpg, hc, hg, hpk, hk, hwk, hpci, hci]
          | some ci =>
            have hpci : pyGet c i = .ok ci := pyGet_eq_ok.mpr hci
            by_cases hcg : ci = gi
            · simp [check_pos, hYES, hNO, hpg, hc, hg, hpk, hk, hwk, hpci,
                hci, hcg]
            · simp [check_pos, hYES, hNO, hpg, hc, hg, hpk, hk, hwk, hpci,
                hci, hcg]
        · simp [check_pos, hYES, hNO, hpg, hc, hg, hpk, hk, hwk]
    · simp [check_pos, hYES, hNO, hpg, hc, hg]
  · simp [check_pos, hYES, hNO, hpg, hc]

/-- Closed instance of the amended C1 rule: with history
`[("EEABC", "Y____")]`, candidate EZEFG, and the Absent tile at position 1,
the exception of the amended rule applies (E is green at position 0, the
candidate holds E there and not at position 1), so the candidate is
accepted at that position. -/
theorem C1_absent_rule_amended_witness :
    check_pos
      (green_letters [(['E', 'E', 'A', 'B', 'C'], ['Y', '_', '_', '_', '_'])])
      ['E', 'Z', 'E', 'F', 'G'] ['E', 'E', 'A', 'B', 'C'] 1 '_' =
      .ok false := by
  apply (C1_absent_rule_amended
    [(['E', 'E', 'A', 'B', 'C'], ['Y', '_', '_', '_', '_'])]
    ['E', 'Z', 'E', 'F', 'G'] ['E', 'E', 'A', 'B', 'C']
    ['Y', '_', '_', '_', '_'] 1 '_' 'E'
    (by decide) (by decide) (by decide) (by decide) (by decide)).mpr
  decide

lemma validate_error_of_bad {ki : List (List Char × List Char)}
    (h : ∃ r ∈ ki, r.1.length ≠ 5 ∨ r.2.length ≠ 5) :
    ∃ msg, validate ki = .error (.valueError msg) := by
  induction ki with
  | nil =>
    obtain ⟨r, hr, _⟩ := h
    cases hr
  | cons a rest ih =>
    obtain ⟨wd, ts⟩ := a
    by_cases hbad : wd.length ≠ 5 ∨ ts.length ≠ 5
    · refine ⟨"The known info list can only contain 5 character strings. Received (" ++ String.mk wd ++ ", " ++ String.mk ts ++ ").", ?_⟩
      simp only [validate]
      rw [if_pos hbad]
    · obtain ⟨r, hr, hlen⟩ := h
      rcases List.mem_cons.mp hr with h1 | h2
      · rw [h1] at hlen
        exact absurd hlen hbad
      · obtain ⟨msg, hmsg⟩ := ih ⟨r, h2, hlen⟩
        refine ⟨msg, ?_⟩
        simp only [validate]
        rw [if_neg hbad]
        exact hmsg

/-- C6 (confirmed): if any history record has an element whose length is
not 5, `find_candidates` fails with the InvalidInput error, and it does so
before any filtering: the result is the same error for every candidate
pool, so no partial output is ever produced. -/
theorem C6_invalid_history (ki : List (List Char × List Char))
    (pool pool2 : List (List Char))
    (h : ∃ r ∈ ki, r.1.length ≠ 5 ∨ r.2.length ≠ 5) :
    isInvalidInput (find_candidates ki pool) = true ∧
    find_candidates ki pool = find_candidates ki pool2 := by
  obtain ⟨msg, hmsg⟩ := validate_error_of_bad h
  constructor
  · simp [find_candidates, hmsg, isInvalidInput]
  · simp [find_candidates, hmsg]

/-- Closed instance of C6: the record `("AB", "Y")` has elements of length
2 and 1, so filtering fails with InvalidInput for the empty pool and yields
the same error for the pool `["ZZZZZ"]`. -/
theorem C6_invalid_history_witness :
    isInvalidInput
      (find_candidates [(['A', 'B'], ['Y'])] []) = true ∧
    find_candidates [(['A', 'B'], ['Y'])] [] =
      find_candidates [(['A', 'B'], ['Y'])] [['Z', 'Z', 'Z', 'Z', 'Z']] :=
  C6_invalid_history [(['A', 'B'], ['Y'])] [] [['Z', 'Z', 'Z', 'Z', 'Z']]
    ⟨(['A', 'B'], ['Y']), by decide, by decide⟩

/-- C7 (confirmed): `compare_words` fails, and fails with InvalidInput,
exactly when the guess or the target does not have length 5; for two
length-5 inputs it returns the tile string, whose length is 5, without
error. -/
theorem C7_compare_length_validation (st : Style) (g w : List Char) :
    (isInvalidInput (compare_words st g w) = true ↔
      (g.length ≠ 5 ∨ w.length ≠ 5)) ∧
    (g.length = 5 → w.length = 5 →
      compare_words st g w = .ok (compare_tiles st g w) ∧
      (compare_tiles st g w).length = 5) := by
  constructor
  · by_cases h : g.length ≠ 5 ∨ w.length ≠ 5
    · simp only [compare_words]
      rw [if_pos h]
      simp [isInvalidInput, h]
    · simp only [compare_words]
      rw [if_neg h]
      simp [isInvalidInput, h]
  · intro hg hw
    have h : ¬(g.length ≠ 5 ∨ w.length ≠ 5) := by simp [hg, hw]
    constructor
    · simp only [compare_words]
      rw [if_neg h]
    · simp [compare_tiles, hg, hw]

/-- Closed instance of C7: `compare("AB", "ABCDE")` fails with
InvalidInput, and on the length-5 inputs SLOSH and SHUNT `compare_words`
returns a length-5 tile string without error. -/
theorem C7_compare_length_validation_witness :
    isInvalidInput
      (compare_words .alpha ['A', 'B'] ['A', 'B', 'C', 'D', 'E']) = true ∧
    compare_words .alpha ['S', 'L', 'O', 'S', 'H'] ['S', 'H', 'U', 'N', 'T'] =
      .ok (compare_tiles .alpha ['S', 'L', 'O', 'S', 'H']
        ['S', 'H', 'U', 'N', 'T']) ∧
    (compare_tiles .alpha ['S', 'L', 'O', 'S', 'H']
      ['S', 'H', 'U', 'N', 'T']).length = 5 :=
  ⟨(C7_compare_length_validation .alpha ['A', 'B']
      ['A', 'B', 'C', 'D', 'E']).1.mpr (by decide),
    (C7_compare_length_validation .alpha ['S', 'L', 'O', 'S', 'H']
      ['S', 'H', 'U', 'N', 'T']).2 (by decide) (by decide)⟩

/-! ## No-error lemmas: on length-5 data the checks never raise -/

lemma check_pos_no_err (gl : List (Option Char)) (word wd : List Char)
    (i : Nat) (tile : Char) (hw : word.length = 5) (hwd : wd.length = 5)
    (hgl : gl.length = 5) (hi : i < 5) :
    ∃ b, check_pos gl word wd i tile = .ok b := by
  obtain ⟨wi, hwi⟩ : ∃ c, word.get? i = some c :=
    ⟨_, List.get?_eq_get (by omega)⟩
  obtain ⟨gi, hgi⟩ : ∃ c, wd.get? i = some c :=
    ⟨_, List.get?_eq_get (by omega)⟩
  have hpwi := pyGet_eq_ok.mpr hwi
  have hpgi := pyGet_eq_ok.mpr hgi
  by_cases hY : tile ∈ YES
  · by_cases h : wi = gi
    · exact ⟨false, by simp [check_pos, hY, hpwi, hpgi, h]⟩
    · exact ⟨true, by simp [check_pos, hY, hpwi, hpgi, h]⟩
  · by_cases hN : tile ∈ NO
    · by_cases hcw : gi ∈ word
      · by_cases hcg : (some gi) ∈ gl
        · obtain ⟨hklen, hkget⟩ := pyIndex_spec hcg
          obtain ⟨wk, hwk⟩ : ∃ c, word.get? (pyIndex (some gi) gl) = some c :=
            ⟨_, List.get?_eq_get (by omega)⟩
          have hpwk := pyGet_eq_ok.mpr hwk
          by_cases hwkgi : wk = gi
          · by_cases hwigi : wi = gi
            · exact ⟨true, by simp [check_pos, hY, hN, hpgi, hcw, hcg, hpwk,
                hwkgi, hpwi, hwigi]⟩
            · exact ⟨false, by simp [check_pos, hY, hN, hpgi, hcw, hcg, hpwk,
                hwkgi, hpwi, hwigi]⟩
          · exact ⟨true, by simp [check_pos, hY, hN, hpgi, hcw, hcg, hpwk,
              hwkgi]⟩
        · exact ⟨true, by simp [check_pos, hY, hN, hpgi, hcw, hcg]⟩
      · exact ⟨false, by simp [check_pos, hY, hN, hpgi, hcw]⟩
    · by_cases hM : tile ∈ MAYBE
      · by_cases hcw : gi ∈ word
        · by_cases h : gi = wi
          · exact ⟨true, by simp [check_pos, hY, hN, hM, hpgi, hcw, hpwi, h]⟩
          · exact ⟨false, by simp [check_pos, hY, hN, hM, hpgi, hcw, hpwi, h]⟩
        · exact ⟨true, by simp [check_pos, hY, hN, hM, hpgi, hcw]⟩
      · exact ⟨false, by simp [check_pos, hY, hN, hM]⟩

lemma check_record_no_err (gl : List (Option Char)) (word wd : List Char)
    (hgl : gl.length = 5) (hw : word.length = 5) (hwd : wd.length = 5) :
    ∀ (l : List Char) (n : Nat), n + l.length ≤ 5 →
      ∃ b, check_record gl word wd (pyEnumFrom n l) = .ok b := by
  intro l
  induction l with
  | nil => exact fun n _ => ⟨false, rfl⟩
  | cons t rest ih =>
    intro n hn
    simp only [List.length_cons] at hn
    obtain ⟨b, hb⟩ := check_pos_no_err gl word wd n t hw hwd hgl (by omega)
    cases b
    · obtain ⟨b2, hb2⟩ := ih (n + 1) (by omega)
      exact ⟨b2, by simp [pyEnumFrom, check_record, hb, hb2]⟩
    · exact ⟨true, by simp [pyEnumFrom, check_record, hb]⟩

lemma check_word_no_err (gl : List (Option Char)) (word : List Char)
    (ki : List (List Char × List Char)) (hgl : gl.length = 5)
    (hw : word.length = 5)
    (hki : ∀ r ∈ ki, r.1.length = 5 ∧ r.2.length = 5) :
    ∃ b, check_word gl word ki = .ok b := by
  induction ki with
  | nil => exact ⟨true, rfl⟩
  | cons a rest ih =>
    obtain ⟨wd, ts⟩ := a
    obtain ⟨h1, h2⟩ := hki (wd, ts) (List.mem_cons_self _ _)
    have h1' : wd.length = 5 := h1
    have h2' : ts.length = 5 := h2
    obtain ⟨b, hb⟩ := check_record_no_err gl word wd hgl hw h1' ts 0
      (by omega)
    cases b
    · obtain ⟨b2, hb2⟩ := ih (fun r hr => hki r (List.mem_cons_of_mem _ hr))
      exact ⟨b2, by simp [check_word, pyEnum, hb, hb2]⟩
    · exact ⟨false, by simp [check_word, pyEnum, hb]⟩

lemma validate_ok {ki : List (List Char × List Char)}
    (h : ∀ r ∈ ki, r.1.length = 5 ∧ r.2.length = 5) : validate ki = .ok () := by
  induction ki with
  | nil => rfl
  | cons a rest ih =>
    obtain ⟨wd, ts⟩ := a
    have hr := h (wd, ts) (List.mem_cons_self _ _)
    have hgood : ¬(wd.length ≠ 5 ∨ ts.length ≠ 5) := by simp [hr.1, hr.2]
    simp only [validate]
    rw [if_neg hgood]
    exact ih (fun r hr2 => h r (List.mem_cons_of_mem _ hr2))

lemma filter_words_eq (gl : List (Option Char))
    (ki : List (List Char × List Char)) :
    ∀ pool, (∀ w ∈ pool, ∃ b, check_word gl w ki = .ok b) →
      filter_words gl ki pool = .ok (pool.filter (qualifies gl ki)) := by
  intro pool
  induction pool with
  | nil => exact fun _ => rfl
  | cons w ws ih =>
    intro h
    obtain ⟨b, hb⟩ := h w (List.mem_cons_self w ws)
    have hq : qualifies gl ki w = b := by simp [qualifies, hb]
    have ihh := ih (fun x hx => h x (List.mem_cons_of_mem _ hx))
    cases b
    · simp [filter_words, hb, ihh, List.filter_cons, hq]
    · simp [filter_words, hb, ihh, List.filter_cons, hq]

/-! ## Length of the green-letter map -/

lemma update_greens_length :
    ∀ (l : List (Nat × (Char × Char))) (gl : List (Option Char)),
      (update_greens gl l).length = gl.length := by
  intro l
  induction l with
  | nil => intro gl; rfl
  | cons e rest ih =>
    intro gl
    obtain ⟨i, lt⟩ := e
    simp only [update_greens]
    rw [ih]
    split <;> simp

lemma green_letters_foldl_length :
    ∀ (ki : List (List Char × List Char)) (gl : List (Option Char)),
      (ki.foldl (fun gl r => update_greens gl (pyEnum (List.zip r.1 r.2)))
        gl).length = gl.length := by
  intro ki
  induction ki with
  | nil => intro gl; rfl
  | cons r rest ih =>
    intro gl
    simp only [List.foldl]
    rw [ih, update_greens_length]

lemma green_letters_length (ki : List (List Char × List Char)) :
    (green_letters ki).length = 5 := by
  unfold green_letters
  rw [green_letters_foldl_length]
  simp

/-- C5 (confirmed): for a history of length-5 records and a candidate pool
of length-5 Words (the data model's pools), `find_candidates` returns
exactly the sub-sequence of the pool obtained by filtering with the
per-word consistency check — so a word is in the output iff it is in the
pool and passes the positional checks of every record — and that filter is
a sublist of the pool, preserving the pool's relative order. -/
theorem C5_filter_characterisation (ki : List (List Char × List Char))
    (pool : List (List Char))
    (hki : ∀ r ∈ ki, r.1.length = 5 ∧ r.2.length = 5)
    (hpool : ∀ w ∈ pool, w.length = 5) :
    find_candidates ki pool =
      .ok (pool.filter (qualifies (green_letters ki) ki)) ∧
    (pool.filter (qualifies (green_letters ki) ki)).Sublist pool ∧
    (∀ w, w ∈ pool.filter (qualifies (green_letters ki) ki) ↔
      (w ∈ pool ∧ check_word (green_letters ki) w ki = .ok true)) := by
  have hgl := green_letters_length ki
  have hne : ∀ w ∈ pool, ∃ b, check_word (green_letters ki) w ki = .ok b :=
    fun w hw => check_word_no_err _ _ _ hgl (hpool w hw) hki
  refine ⟨?_, List.filter_sublist _, ?_⟩
  · simp only [find_candidates, validate_ok hki]
    exact filter_words_eq _ _ pool hne
  · intro w
    rw [List.mem_filter]
    constructor
    · rintro ⟨hw, hq⟩
      refine ⟨hw, ?_⟩
      obtain ⟨b, hb⟩ := hne w hw
      have hbt : b = true := by simpa [qualifies, hb] using hq
      rw [hbt] at hb
      exact hb
    · rintro ⟨hw, hc⟩
      exact ⟨hw, by simp [qualifies, hc]⟩

/-- Closed instance of C5: with history `[("SLOSH", "Y___?")]` and pool
`["SHUNT", "TRAIN"]`, `find_candidates` returns exactly the filtered
sub-sequence of the pool. -/
theorem C5_filter_characterisation_witness :
    find_candidates [(['S', 'L', 'O', 'S', 'H'], ['Y', '_', '_', '_', '?'])]
      [['S', 'H', 'U', 'N', 'T'], ['T', 'R', 'A', 'I', 'N']] =
      .ok ([['S', 'H', 'U', 'N', 'T'], ['T', 'R', 'A', 'I', 'N']].filter
        (qualifies
          (green_letters
            [(['S', 'L', 'O', 'S', 'H'], ['Y', '_', '_', '_', '?'])])
          [(['S', 'L', 'O', 'S', 'H'], ['Y', '_', '_', '_', '?'])])) :=
  (C5_filter_characterisation
    [(['S', 'L', 'O', 'S', 'H'], ['Y', '_', '_', '_', '?'])]
    [['S', 'H', 'U', 'N', 'T'], ['T', 'R', 'A', 'I', 'N']]
    (by decide) (by decide)).1

/-- C10 (confirmed): `find_candidates` length-validates only the history
records, never the pool: under a history of length-5 records, any pool all
of whose words get through the per-record per-position checks without
raising — no matter their lengths — is filtered normally, every such word
that passes being included; and with an empty history an arbitrary pool
(length-5 or not) is returned unchanged rather than rejected with
InvalidInput. -/
theorem C10_no_pool_validation (ki : List (List Char × List Char))
    (pool pool2 : List (List Char))
    (hki : ∀ r ∈ ki, r.1.length = 5 ∧ r.2.length = 5)
    (hpool : ∀ w ∈ pool, ∃ b, check_word (green_letters ki) w ki = .ok b) :
    find_candidates ki pool =
      .ok (pool.filter (qualifies (green_letters ki) ki)) ∧
    find_candidates [] pool2 = .ok pool2 := by
  refine ⟨?_, fc_nil pool2⟩
  simp only [find_candidates, validate_ok hki]
  exact filter_words_eq _ _ pool hpool

/-- Closed instance of C10: with the length-5 history record
`("ABCDE", "_____")` the one-letter pool word "Z" passes every check and is
returned, and with the empty history the length-2 pool word "AB" is
returned unchanged — no length validation of the pool in either case. -/
theorem C10_no_pool_validation_witness :
    find_candidates [(['A', 'B', 'C', 'D', 'E'], ['_', '_', '_', '_', '_'])]
      [['Z']] =
      .ok ([['Z']].filter
        (qualifies
          (green_letters
            [(['A', 'B', 'C', 'D', 'E'], ['_', '_', '_', '_', '_'])])
          [(['A', 'B', 'C', 'D', 'E'], ['_', '_', '_', '_', '_'])])) ∧
    find_candidates [] [['A', 'B']] = .ok [['A', 'B']] :=
  C10_no_pool_validation
    [(['A', 'B', 'C', 'D', 'E'], ['_', '_', '_', '_', '_'])]
    [['Z']] [['A', 'B']] (by decide) (by decide)

/-! ## Idempotence of filtering -/

lemma filter_words_fixpoint (gl : List (Option Char))
    (ki : List (List Char × List Char)) :
    ∀ pool out, filter_words gl ki pool = .ok out →
      filter_words gl ki out = .ok out := by
  intro pool
  induction pool with
  | nil =>
    intro out h
    obtain rfl : ([] : List (List Char)) = out := Except.ok.inj h
    rfl
  | cons w ws ih =>
    intro out h
    cases hcw : check_word gl w ki with
    | error e => simp [filter_words, hcw] at h
    | ok q =>
      cases hfw : filter_words gl ki ws with
      | error e => simp [filter_words, hcw, hfw] at h
      | ok rest =>
        have hout : (if q then w :: rest else rest) = out := by
          have := h
          simp only [filter_words, hcw, hfw] at this
          exact Except.ok.inj this
        have ihr := ih rest hfw
        cases q
        · rw [← hout]
          simpa using ihr
        · rw [← hout]
          simp [filter_words, hcw, ihr]

/-- C9 (confirmed): filtering is idempotent — whenever a first call of
`find_candidates` on a history and pool succeeds with some output, running
`find_candidates` with the same history on that output returns the output
unchanged. -/
theorem C9_filter_idempotent (ki : List (List Char × List Char))
    (pool out : List (List Char))
    (h : find_candidates ki pool = .ok out) :
    find_candidates ki out = .ok out := by
  unfold find_candidates at h ⊢
  cases hv : validate ki with
  | error e =>
    rw [hv] at h
    exact absurd h (by simp)
  | ok u =>
    rw [hv] at h
    exact filter_words_fixpoint _ _ pool out h

/-- Closed instance of C9: refiltering the result `["SHUNT"]` of a first
filtering call with the same history returns it unchanged. -/
theorem C9_filter_idempotent_witness :
    find_candidates [(['S', 'L', 'O', 'S', 'H'], ['Y', '_', '_', '_', '?'])]
      [['S', 'H', 'U', 'N', 'T']] = .ok [['S', 'H', 'U', 'N', 'T']] :=
  C9_filter_idempotent
    [(['S', 'L', 'O', 'S', 'H'], ['Y', '_', '_', '_', '?'])]
    [['S', 'H', 'U', 'N', 'T'], ['T', 'R', 'A', 'I', 'N']]
    [['S', 'H', 'U', 'N', 'T']] (by decide)

/-! ## Characterising the green-letter map of a single record -/

lemma update_greens_untouched :
    ∀ (l : List (Char × Char)) (n : Nat) (gl : List (Option Char)) (j : Nat),
      j < n → (update_greens gl (pyEnumFrom n l)).get? j = gl.get? j := by
  intro l
  induction l with
  | nil => intro n gl j _; rfl
  | cons p rest ih =>
    intro n gl j hj
    obtain ⟨c, t⟩ := p
    simp only [pyEnumFrom, update_greens]
    rw [ih (n + 1) _ j (by omega)]
    split
    · exact List.get?_set_ne _ _ (by omega)
    · rfl

lemma update_greens_get? :
    ∀ (l : List (Char × Char)) (n : Nat) (gl : List (Option Char))
      (k : Nat) (p : Char × Char), l.get? k = some p → n + k < gl.length →
      (update_greens gl (pyEnumFrom n l)).get? (n + k) =
        if p.2 ∈ YES then some (some p.1) else gl.get? (n + k) := by
  intro l
  induction l with
  | nil =>
    intro n gl k p hp _
    simp at hp
  | cons q rest ih =>
    intro n gl k p hp hlt
    obtain ⟨c, t⟩ := q
    cases k with
    | zero =>
      simp only [List.get?] at hp
      have hp' := Option.some.inj hp
      subst hp'
      simp only [pyEnumFrom, update_greens]
      rw [update_greens_untouched rest (n + 1) _ (n + 0) (by omega)]
      rw [Nat.add_zero]
      split
      · exact List.get?_set_eq_of_lt _ (by simpa using hlt)
      · rfl
    | succ k2 =>
      simp only [List.get?] at hp
      simp only [pyEnumFrom, update_greens]
      have hlen : (if t ∈ YES then gl.set n (some c) else gl).length =
          gl.length := by
        split <;> simp
      have h2 : (n + 1) + k2 <
          (if t ∈ YES then gl.set n (some c) else gl).length := by
        rw [hlen]
        omega
      have hrec := ih (n + 1) _ k2 p hp h2
      rw [show n + (k2 + 1) = (n + 1) + k2 from by omega, hrec]
      by_cases hp2 : p.2 ∈ YES
      · simp [hp2]
      · simp only [if_neg hp2]
        split
        · exact List.get?_set_ne _ _ (by omega)
        · rfl

lemma green_letters_single (wd ts : List Char) (j : Nat) (gj tj : Char)
    (hg : wd.get? j = some gj) (ht : ts.get? j = some tj) (hj : j < 5) :
    (green_letters [(wd, ts)]).get? j =
      some (if tj ∈ YES then some gj else none) := by
  have hz : (List.zip wd ts).get? j = some (gj, tj) :=
    (List.get?_zip_eq_some _ _ _ _).mpr ⟨hg, ht⟩
  unfold green_letters
  simp only [List.foldl]
  unfold pyEnum
  have hmain := update_greens_get? (List.zip wd ts) 0
    (List.replicate 5 (none : Option Char)) j (gj, tj) hz (by simp; omega)
  rw [Nat.zero_add] at hmain
  rw [hmain]
  by_cases h : tj ∈ YES
  · simp [h]
  · simp [h]
    interval_cases j <;> rfl

/-! ## Round-trip consistency: the target always passes its own feedback -/

lemma Y_mem_YES (st : Style) : Y_DISPLAY st ∈ YES := by cases st <;> decide

lemma M_not_YES (st : Style) : M_DISPLAY st ∉ YES := by cases st <;> decide

lemma M_not_NO (st : Style) : M_DISPLAY st ∉ NO := by cases st <;> decide

lemma M_mem_MAYBE (st : Style) : M_DISPLAY st ∈ MAYBE := by
  cases st <;> decide

lemma N_not_YES (st : Style) : N_DISPLAY st ∉ YES := by cases st <;> decide

lemma N_mem_NO (st : Style) : N_DISPLAY st ∈ NO := by cases st <;> decide

lemma compare_tiles_get? (st : Style) (g t : List Char) (i : Nat)
    (ti gi : Char) (ht : t.get? i = some ti) (hg : g.get? i = some gi) :
    (compare_tiles st g t).get? i = some
      (if ti = gi then Y_DISPLAY st
       else if (List.zip t g).any (fun q => q.1 == gi && q.2 != gi) then
         M_DISPLAY st
       else N_DISPLAY st) := by
  unfold compare_tiles
  simp only [List.get?_map,
    (List.get?_zip_eq_some t g (ti, gi) i).mpr ⟨ht, hg⟩, Option.map_some']

lemma compare_tiles_length (st : Style) (g t : List Char)
    (hg : g.length = 5) (ht : t.length = 5) :
    (compare_tiles st g t).length = 5 := by
  simp [compare_tiles, hg, ht]

lemma green_single_compare (st : Style) (g t : List Char) (j : Nat)
    (hj : j < 5) (gj tj : Char) (hgj : g.get? j = some gj)
    (htj : t.get? j = some tj) :
    (green_letters [(g, compare_tiles st g t)]).get? j =
      some (if tj = gj then some gj else none) := by
  have hfb := compare_tiles_get? st g t j tj gj htj hgj
  have hone := green_letters_single g (compare_tiles st g t) j gj _ hgj hfb hj
  rw [hone]
  congr 1
  by_cases h : tj = gj
  · rw [if_pos h, if_pos (Y_mem_YES st), if_pos h]
  · rw [if_neg h, if_neg h]
    have hnot : (if (List.zip t g).any (fun q => q.1 == gj && q.2 != gj) then
        M_DISPLAY st else N_DISPLAY st) ∉ YES := by
      split
      · exact M_not_YES st
      · exact N_not_YES st
    rw [if_neg hnot]

lemma c3_pos (st : Style) (g t : List Char) (hg5 : g.length = 5)
    (ht5 : t.length = 5) (i : Nat) (hi : i < 5) (gi ti : Char)
    (hgi : g.get? i = some gi) (hti : t.get? i = some ti) :
    check_pos (green_letters [(g, compare_tiles st g t)]) t g i
      (if ti = gi then Y_DISPLAY st
       else if (List.zip t g).any (fun q => q.1 == gi && q.2 != gi) then
         M_DISPLAY st
       else N_DISPLAY st) = .ok false := by
  have hpti := pyGet_eq_ok.mpr hti
  have hpgi := pyGet_eq_ok.mpr hgi
  by_cases h : ti = gi
  · rw [if_pos h]
    simp [check_pos, Y_mem_YES st, hpti, hpgi, h]
  · rw [if_neg h]
    by_cases hany :
        (List.zip t g).any (fun q => q.1 == gi && q.2 != gi) = true
    · rw [if_pos hany]
      have hmem : gi ∈ t := by
        obtain ⟨q, hqmem, hq⟩ := List.any_eq_true.mp hany
        simp only [Bool.and_eq_true, beq_iff_eq, bne_iff_ne] at hq
        have hq1 := (List.of_mem_zip hqmem).1
        rwa [hq.1] at hq1
      have h2 : ¬(gi = ti) := fun hh => h hh.symm
      simp [check_pos, M_not_YES st, M_not_NO st, M_mem_MAYBE st, hpgi,
        hmem, hpti, h2]
    · rw [if_neg hany]
      by_cases hmem : gi ∈ t
      · obtain ⟨j, hjt⟩ := List.mem_iff_get?.mp hmem
        have hj5 : j < 5 := by
          obtain ⟨hlt, -⟩ := List.get?_eq_some.mp hjt
          omega
        obtain ⟨gj, hgj⟩ : ∃ c, g.get? j = some c :=
          ⟨_, List.get?_eq_get (by omega)⟩
        have hzj : (List.zip t g).get? j = some (gi, gj) :=
          (List.get?_zip_eq_some _ _ _ _).mpr ⟨hjt, hgj⟩
        have hqmem := List.get?_mem hzj
        have hgj_eq : gj = gi := by
          by_contra hne
          exact hany (List.any_eq_true.mpr ⟨(gi, gj), hqmem, by simp [hne]⟩)
        have hglj : (green_letters [(g, compare_tiles st g t)]).get? j =
            some (some gi) := by
          have hc := green_single_compare st g t j hj5 gj gi hgj hjt
          rw [hgj_eq] at hc
          simpa using hc
        have hg_mem : (some gi) ∈ green_letters [(g, compare_tiles st g t)] :=
          List.get?_mem hglj
        obtain ⟨hklt, hkget⟩ := pyIndex_spec hg_mem
        have hk5 : pyIndex (some gi)
            (green_letters [(g, compare_tiles st g t)]) < 5 := by
          rw [green_letters_length] at hklt
          exact hklt
        obtain ⟨gk, hgk⟩ : ∃ c, g.get? (pyIndex (some gi)
            (green_letters [(g, compare_tiles st g t)])) = some c :=
          ⟨_, List.get?_eq_get (by omega)⟩
        obtain ⟨tk, htk⟩ : ∃ c, t.get? (pyIndex (some gi)
            (green_letters [(g, compare_tiles st g t)])) = some c :=
          ⟨_, List.get?_eq_get (by omega)⟩
        have hchar := green_single_compare st g t _ hk5 gk tk hgk htk
        rw [hchar] at hkget
        have hks := Option.some.inj hkget
        have htkgi : tk = gi := by
          by_cases hh : tk = gk
          · rw [if_pos hh] at hks
            exact hh.trans (Option.some.inj hks)
          · rw [if_neg hh] at hks
            exact absurd hks (by simp)
        have htk_gi : t.get? (pyIndex (some gi)
            (green_letters [(g, compare_tiles st g t)])) = some gi := by
          rw [htk, htkgi]
        have hptk := pyGet_eq_ok.mpr htk_gi
        simp [check_pos, N_not_YES st, N_mem_NO st, hpgi, hmem, hg_mem,
          hptk, hpti, h]
      · simp [check_pos, N_not_YES st, N_mem_NO st, hpgi, hmem]

lemma check_record_all_pass (gl : List (Option Char)) (word wd : List Char) :
    ∀ (l : List Char) (n : Nat),
      (∀ k tile, l.get? k = some tile →
        check_pos gl word wd (n + k) tile = .ok false) →
      check_record gl word wd (pyEnumFrom n l) = .ok false := by
  intro l
  induction l with
  | nil => intro n _; rfl
  | cons tile rest ih =>
    intro n h
    have h0 := h 0 tile rfl
    rw [Nat.add_zero] at h0
    simp only [pyEnumFrom, check_record, h0]
    exact ih (n + 1) (fun k tl hk => by
      have hs := h (k + 1) tl hk
      rwa [show n + (k + 1) = (n + 1) + k from by omega] at hs)

lemma c3_tiles_pass (st : Style) (g t : List Char) (hg5 : g.length = 5)
    (ht5 : t.length = 5) :
    check_record (green_letters [(g, compare_tiles st g t)]) t g
      (pyEnum (compare_tiles st g t)) = .ok false := by
  unfold pyEnum
  apply check_record_all_pass
  intro k tile hk
  rw [Nat.zero_add]
  have hlen := compare_tiles_length st g t hg5 ht5
  have hk5 : k < 5 := by
    obtain ⟨hlt, -⟩ := List.get?_eq_some.mp hk
    omega
  obtain ⟨gk, hgk⟩ : ∃ c, g.get? k = some c :=
    ⟨_, List.get?_eq_get (by omega)⟩
  obtain ⟨tk, htk⟩ : ∃ c, t.get? k = some c :=
    ⟨_, List.get?_eq_get (by omega)⟩
  have hform := compare_tiles_get? st g t k tk gk htk hgk
  rw [hform] at hk
  rw [← Option.some.inj hk]
  exact c3_pos st g t hg5 ht5 k hk5 gk tk hgk htk

/-- C3 (confirmed): round-trip consistency.  For any guess g and target t
of length 5 and any candidate pool of length-5 Words containing t, feeding
the feedback `compare_words g t` back into `find_candidates` as a
single-record history never excludes t: the call succeeds with the filtered
pool, and t is in it. -/
theorem C3_round_trip (st : Style) (g t : List Char)
    (pool : List (List Char)) (hg : g.length = 5) (ht : t.length = 5)
    (hpool : ∀ w ∈ pool, w.length = 5) (hmem : t ∈ pool)
    (fb : List Char) (hfb : compare_words st g t = .ok fb) :
    find_candidates [(g, fb)] pool =
      .ok (pool.filter (qualifies (green_letters [(g, fb)]) [(g, fb)])) ∧
    t ∈ pool.filter (qualifies (green_letters [(g, fb)]) [(g, fb)]) := by
  have hfb2 : fb = compare_tiles st g t := by
    unfold compare_words at hfb
    rw [if_neg (by simp [hg, ht])] at hfb
    exact (Except.ok.inj hfb).symm
  subst hfb2
  have hfb_len := compare_tiles_length st g t hg ht
  have hki : ∀ r ∈ [(g, compare_tiles st g t)],
      r.1.length = 5 ∧ r.2.length = 5 := by
    intro r hr
    rcases List.mem_singleton.mp hr with rfl
    exact ⟨hg, hfb_len⟩
  have hgl := green_letters_length [(g, compare_tiles st g t)]
  have hne : ∀ w ∈ pool, ∃ b,
      check_word (green_letters [(g, compare_tiles st g t)]) w
        [(g, compare_tiles st g t)] = .ok b :=
    fun w hw => check_word_no_err _ _ _ hgl (hpool w hw) hki
  constructor
  · simp only [find_candidates, validate_ok hki]
    exact filter_words_eq _ _ pool hne
  · rw [List.mem_filter]
    refine ⟨hmem, ?_⟩
    have hcr := c3_tiles_pass st g t hg ht
    simp [qualifies, check_word, hcr]

/-- Closed instance of C3: with guess SLOSH and target SHUNT, the feedback
of `compare_words` fed back through `find_candidates` keeps SHUNT in the
pool `["SHUNT", "TRAIN"]`. -/
theorem C3_round_trip_witness :
    find_candidates [(['S', 'L', 'O', 'S', 'H'], ['Y', '_', '_', '_', '?'])]
      [['S', 'H', 'U', 'N', 'T'], ['T', 'R', 'A', 'I', 'N']] =
      .ok ([['S', 'H', 'U', 'N', 'T'], ['T', 'R', 'A', 'I', 'N']].filter
        (qualifies
          (green_letters
            [(['S', 'L', 'O', 'S', 'H'], ['Y', '_', '_', '_', '?'])])
          [(['S', 'L', 'O', 'S', 'H'], ['Y', '_', '_', '_', '?'])])) ∧
    ['S', 'H', 'U', 'N', 'T'] ∈
      [['S', 'H', 'U', 'N', 'T'], ['T', 'R', 'A', 'I', 'N']].filter
        (qualifies
          (green_letters
            [(['S', 'L', 'O', 'S', 'H'], ['Y', '_', '_', '_', '?'])])
          [(['S', 'L', 'O', 'S', 'H'], ['Y', '_', '_', '_', '?'])]) :=
  C3_round_trip .alpha ['S', 'L', 'O', 'S', 'H'] ['S', 'H', 'U', 'N', 'T']
    [['S', 'H', 'U', 'N', 'T'], ['T', 'R', 'A', 'I', 'N']]
    (by decide) (by decide) (by decide) (by decide)
    ['Y', '_', '_', '_', '?'] (by decide)
